import Mathlib

/-!
Verification of the view-enumeration and class-analysis core of pytype.

The definitions below are a shallow embedding of the functions in
`pytype/abstract_utils.py` and `pytype/class_mixin.py`.  Abstract values,
bindings and CFG nodes are represented by small concrete structures; the
control flow of each Python function is reproduced step by step.
-/

namespace PytypeSpec

/-! ### Value-graph data model

A `Binding` records the variable it belongs to, the abstract value it
carries, the CFG node at which it was added and the source bindings it
depends on (spec data model).  A `Variable` is an append-only ordered
collection of bindings.
-/

structure Binding where
  var : Nat
  data : Nat
  origin : Nat
  sources : List Nat
deriving DecidableEq

structure Variable where
  id : Nat
  bindings : List Binding
deriving DecidableEq

/-- Number of combinations the Cartesian product of the bindings would have. -/
def productSize (vars : List Variable) : Nat :=
  (vars.map (fun v => v.bindings.length)).prod

/-- Cartesian product of the bindings of a nonempty list of variables, in
the enumeration order of `itertools.product`: the first variable varies
slowest. -/
def bindingProduct : List Variable → List (List Binding)
  | [] => [[]]
  | v :: vs => v.bindings.flatMap (fun b => (bindingProduct vs).map (fun c => b :: c))

/-- Modelled from the spec: `cfg_utils.deep_variable_product` is external to
the repository files.  The spec describes it as the Cartesian product of each
Variable's Bindings (claims restrict attention to variables with no nested
sub-variables), and specifies that the empty-Variable-set case yields zero
Views, so the empty case produces no combination. -/
def deepVariableProduct (vars : List Variable) : List (List Binding) :=
  match vars with
  | [] => []
  | _ :: _ => bindingProduct vars

/-! ### Views

`get_views` builds for each combination the dict
`{value.variable: value for value in combination}`: an insertion-ordered map
from variable to chosen binding.  `dictInsert` reproduces Python dict
assignment (an existing key keeps its position and gets the new value). -/

def dictInsert (m : List (Nat × Binding)) (k : Nat) (b : Binding) :
    List (Nat × Binding) :=
  if m.any (fun p => p.1 = k) then
    m.map (fun p => if p.1 = k then (k, b) else p)
  else
    m ++ [(k, b)]

/-- The view dict built from one combination. -/
def mkView (c : List Binding) : List (Nat × Binding) :=
  c.foldl (fun m b => dictInsert m b.var b) []

/-- The main loop of `get_views`: for each candidate combination, skip it if
its items are a superset of a previously committed accessed subset, discard
it if the node rejects the combination, otherwise yield it and, when the
consumer answers the yield with a skip instruction, commit the accessed
subset of the view.  The consumer is a function from the yielded view to the
set of keys it read and its skip answer. -/
def viewLoop (node : List Binding → Bool)
    (consumer : List (Nat × Binding) → List Nat × Bool) :
    List (List Binding) → List (List (Nat × Binding)) → List (List (Nat × Binding))
  | [], _ => []
  | c :: rest, seen =>
    let view := mkView c
    if seen.any (fun s => s.all (fun p => decide (p ∈ view))) then
      viewLoop node consumer rest seen
    else if !node (view.map Prod.snd) then
      viewLoop node consumer rest seen
    else
      let r := consumer view
      view :: viewLoop node consumer rest
        (if r.2 then seen ++ [view.filter (fun p => decide (p.1 ∈ r.1))] else seen)

/-- Embedding of `abstract_utils.get_views`.  `limit` is the external
complexity cap (modelled from the spec; `cfg_utils.TooComplexError` is
raised when the product is too large).  In the fallback case one degenerate
combination is enumerated, consisting of one fresh wildcard binding per
variable (`var.AddBinding(node.program.default_data, [], node)`), and those
bindings are appended to the input variables; the second component of the
result is the final state of the variables. -/
def get_views (limit : Nat) (defaultData : Nat) (nodeId : Nat)
    (node : List Binding → Bool)
    (consumer : List (Nat × Binding) → List Nat × Bool)
    (vars : List Variable) :
    List (List (Nat × Binding)) × List Variable :=
  if limit < productSize vars then
    let combo := vars.map (fun v => Binding.mk v.id defaultData nodeId [])
    (viewLoop node consumer [combo] [],
     vars.map (fun v =>
       { v with bindings := v.bindings ++ [Binding.mk v.id defaultData nodeId []] }))
  else
    (viewLoop node consumer (deepVariableProduct vars) [], vars)

/-- Lookup of a key in a view dict (first entry with the key; view dicts
built by `mkView` have distinct keys). -/
def viewGet (view : List (Nat × Binding)) (k : Nat) : Option Binding :=
  match view with
  | [] => none
  | p :: rest => if p.1 = k then some p.2 else viewGet rest k

/-- The distinct bindings of variable `X` that survive the combination check
of the node: those chosen for `X` by at least one enumerated combination
that `CanHaveCombination` accepts. -/
def survivors (node : List Binding → Bool) (X : Nat)
    (combos : List (List Binding)) : Finset Binding :=
  ((combos.filter (fun c => node ((mkView c).map Prod.snd))).filterMap
    (fun c => viewGet (mkView c) X)).toFinset

/-- The consumer of claim C1: it reads only variable `X` from every yielded
view and answers every yield with a skip instruction. -/
def consumerX (X : Nat) : List (Nat × Binding) → List Nat × Bool :=
  fun _ => ([X], true)

/-- The consumer that reads nothing and never requests skipping. -/
def consumerNone : List (Nat × Binding) → List Nat × Bool :=
  fun _ => ([], false)

/-- The degenerate combination of the too-complex fallback: one wildcard
binding (default data, empty source set, the given node) per variable. -/
def degenCombo (vars : List Variable) (defaultData nodeId : Nat) :
    List Binding :=
  vars.map (fun v => Binding.mk v.id defaultData nodeId [])

/-! ### Mutations (`abstract_utils.apply_mutations`)

A CFG node is represented by its identifier; `ConnectNew` yields a fresh
node.  The loop counts the mutations seen so far and connects a new node on
the first one only; each mutation is recorded together with the node it was
applied against, and the number of `ConnectNew` calls is returned so the
theorems can speak about how many nodes were created. -/

structure Mutation where
  obj : Nat
  name : String
  value : Nat
deriving DecidableEq

def connectNew (n : Nat) : Nat := n + 1

def applyLoop (node : Nat) (num : Nat) (applied : List (Nat × Mutation))
    (created : Nat) : List Mutation → Nat × List (Nat × Mutation) × Nat
  | [] => (node, applied, created)
  | m :: rest =>
    if num = 0 then
      applyLoop (connectNew node) (num + 1) (applied ++ [(connectNew node, m)])
        (created + 1) rest
    else
      applyLoop node (num + 1) (applied ++ [(node, m)]) created rest

/-- Embedding of `abstract_utils.apply_mutations`: returns the final node,
the list of applied mutations paired with the node each was applied at, and
the number of new nodes created. -/
def apply_mutations (node : Nat) (muts : List Mutation) :
    Nat × List (Nat × Mutation) × Nat :=
  applyLoop node 0 [] 0 muts

/-! ### Type merging (`abstract_utils._merge_type`)

A type value carries an identity, an unsolvable flag (the universal
placeholder `Any`) and the identities of the classes in its linearization
(which contains the value itself). -/

structure TVal where
  id : Nat
  unsolv : Bool
  mro : List Nat
deriving DecidableEq

/-- Embedding of `abstract_utils._merge_type`; `none` stands for an absent
(unbound) value.  A conflict raises `GenericTypeError(cls, msg)`, modelled
by an error value carrying the class and the message. -/
def _merge_type (t0 t1 : Option TVal) (name : String) (cls : String) :
    Except (String × String) (Option TVal) :=
  match t0 with
  | none => .ok t1
  | some s0 =>
    if s0.unsolv then .ok t1
    else
      match t1 with
      | none => .ok t0
      | some s1 =>
        if s1.unsolv then .ok t0
        else if s0.id ∈ s1.mro then .ok t1
        else if s1.id ∈ s0.mro then .ok t0
        else .error (cls, "Conflicting value for TypeVar " ++ name)

/-! ### C3 linearization (`pytd.mro`, modelled from the spec)

`mro.MROMerge` and `mro.MergeSequences` are external to the repository
files.  Modelled from the spec: a C3-style merge that repeatedly selects a
list-head not present in any other list's tail, appends it and removes it
everywhere, failing when no list has an eligible head. -/

def c3EligibleHead {α : Type} [DecidableEq α] (seqs : List (List α)) (a : α) :
    Bool :=
  seqs.all (fun s => a ∉ s.tail)

def c3PickHead {α : Type} [DecidableEq α] (seqs : List (List α)) :
    Option α :=
  (seqs.filterMap List.head?).find? (fun a => c3EligibleHead seqs a)

def c3Remove {α : Type} [DecidableEq α] (seqs : List (List α)) (a : α) :
    List (List α) :=
  seqs.map (fun s => s.filter (fun x => x ≠ a))

def c3MergeFuel {α : Type} [DecidableEq α] :
    Nat → List (List α) → Option (List α)
  | 0, _ => none
  | fuel + 1, seqs =>
    let live := seqs.filter (fun s => s ≠ [])
    if live.isEmpty then some []
    else
      match c3PickHead live with
      | none => none
      | some a => (c3MergeFuel fuel (c3Remove live a)).map (fun rest => a :: rest)

/-- Modelled from the spec: the C3 merge over a family of sequences, with
enough fuel to consume every element. -/
def c3Merge {α : Type} [DecidableEq α] (seqs : List (List α)) :
    Option (List α) :=
  c3MergeFuel ((seqs.map List.length).sum + 1) seqs

/-! ### MRO computation (`class_mixin.Class.compute_mro`)

A class-like value is either a plain class or a `ParameterizedClass`
wrapping a base class (`pc wrapperId baseClassId`); the wrapped base class
is substituted during the merge and the wrapper restored afterwards through
the `base2cls` dict. -/

inductive CVal where
  | plain : Nat → CVal
  | pc : Nat → Nat → CVal
deriving DecidableEq

/-- `base2cls` keys: a `ParameterizedClass` is keyed by its wrapped base
class, anything else by itself. -/
def assocKey : CVal → CVal
  | .pc _ c => .plain c
  | v => v

/-- Python dict assignment on an association list over `CVal` keys. -/
def dictInsertC (m : List (CVal × CVal)) (k v : CVal) : List (CVal × CVal) :=
  if m.any (fun p => p.1 = k) then
    m.map (fun p => if p.1 = k then (k, v) else p)
  else
    m ++ [(k, v)]

def lookupAssoc (m : List (CVal × CVal)) (k : CVal) : Option CVal :=
  match m with
  | [] => none
  | p :: rest => if p.1 = k then some p.2 else lookupAssoc rest k

/-- The `base2cls` dict of `compute_mro`: every base of every row is entered
under its unwrapped identity, by Python dict assignment, rows and entries in
order. -/
def buildAssoc (rows : List (List CVal)) : List (CVal × CVal) :=
  rows.foldl (fun m row => row.foldl (fun m b => dictInsertC m (assocKey b) b) m) []

/-- A resolved base class together with its own linearization. -/
structure ClassRec where
  val : CVal
  mro : List CVal
deriving DecidableEq

/-- The merge input rows of `compute_mro`:
`[[self]] + [list(base.mro) for base in bases] + [list(bases)]`. -/
def mroRows (self : CVal) (bases : List ClassRec) : List (List CVal) :=
  [[self]] ++ bases.map ClassRec.mro ++ [bases.map ClassRec.val]

/-- Embedding of `class_mixin.Class.compute_mro`: substitute each
`ParameterizedClass` by its wrapped base class, C3-merge, then restore
through the `base2cls` dict.  `none` is an `MroError`. -/
def compute_mro (self : CVal) (bases : List ClassRec) : Option (List CVal) :=
  let rows := mroRows self bases
  let base2cls := buildAssoc rows
  let newbases := rows.map (fun row => row.map assocKey)
  (c3Merge newbases).map
    (fun merged => merged.map (fun b => (lookupAssoc base2cls b).getD b))

/-- The first association of an unwrapped identity encountered across the
merge input rows, scanned in order (what the claim says is restored). -/
def firstAssoc (rows : List (List CVal)) (k : CVal) : Option CVal :=
  ((rows.flatten).filter (fun b => assocKey b = k)).head?

/-- The last association of an unwrapped identity encountered across the
merge input rows, scanned in order. -/
def lastAssoc (rows : List (List CVal)) (k : CVal) : Option CVal :=
  ((rows.flatten).filter (fun b => assocKey b = k)).getLast?

/-! ### Generic templates (`abstract_utils.compute_template`)

A type parameter has a name and an optional module scope (`with_module`
namespaces it into the declaring class).  A formal-parameter value is
either a bare type parameter or a concrete value. -/

structure TParamV where
  name : String
  module : Option String
deriving DecidableEq

inductive PVal where
  | tp : TParamV → PVal
  | conc : Nat → PVal
deriving DecidableEq

def PVal.isTypeParameter : PVal → Bool
  | .tp _ => true
  | .conc _ => false

def PVal.withModule (p : PVal) (m : String) : PVal :=
  match p with
  | .tp t => .tp { t with module := some m }
  | .conc n => .conc n

/-- A resolved base class as `compute_template` consults it: its full name,
whether it is a `PyTDClass`, whether it is a `ParameterizedClass`, the names
of its template items, and its formal type parameters. -/
structure BaseC where
  full_name : String
  isPyTD : Bool
  isParam : Bool
  template : List String
  ftp : List (String × PVal)
deriving DecidableEq

def lookupStr {β : Type} (m : List (String × β)) (k : String) : Option β :=
  match m with
  | [] => none
  | p :: rest => if p.1 = k then some p.2 else lookupStr rest k

/-- `base.formal_type_parameters.get(item.name)`. -/
def BaseC.getFtp (b : BaseC) (n : String) : Option PVal := lookupStr b.ftp n

/-- Errors of `compute_template`: a `GenericTypeError` carrying the class it
is reported on and the message, or the crash a missing formal-parameter
entry would cause in the Python code. -/
inductive GErr where
  | generic : String → String → GErr
  | attrErr : GErr
deriving DecidableEq

/-- `[param.with_module(val.full_name) for item in base.template]` with
`param = base.formal_type_parameters.get(item.name)`. -/
def collectGenericParams (valFullName : String) (b : BaseC) :
    Except GErr (List PVal) :=
  b.template.mapM (fun nm =>
    match b.getFtp nm with
    | none => .error .attrErr
    | some p => .ok (p.withModule valFullName))

/-- The first loop of `compute_template`: count the `typing.Generic` bases
and collect their type parameters. -/
def genericLoop (valName valFullName : String) :
    List BaseC → List PVal → Except GErr (List PVal)
  | [], template => .ok template
  | b :: rest, template =>
    if b.full_name = "typing.Generic" then
      if b.isPyTD then
        .error (.generic valName "Cannot inherit from plain Generic")
      else if template ≠ [] then
        .error (.generic valName "Cannot inherit from Generic[...] multiple times")
      else
        match collectGenericParams valFullName b with
        | .error e => .error e
        | .ok ps => genericLoop valName valFullName rest (template ++ ps)
    else genericLoop valName valFullName rest template

/-- The per-base inner loop of the completeness check: every bare type
parameter used by a parameterized base must appear in the template. -/
def checkBaseItems (valName valFullName : String) (template : List PVal)
    (b : BaseC) : List String → Except GErr Unit
  | [] => .ok ()
  | nm :: rest =>
    match b.getFtp nm with
    | none => .error .attrErr
    | some p =>
      if p.isTypeParameter then
        if p.withModule valFullName ∈ template then
          checkBaseItems valName valFullName template b rest
        else
          .error (.generic valName "Generic should contain all the type variables")
      else checkBaseItems valName valFullName template b rest

/-- The completeness check for one base: bases named `typing.Generic` and
non-parameterized bases are skipped. -/
def checkOne (valName valFullName : String) (template : List PVal)
    (b : BaseC) : Except GErr Unit :=
  if b.full_name = "typing.Generic" then .ok ()
  else if b.isParam then
    checkBaseItems valName valFullName template b b.template
  else .ok ()

def checkCovers (valName valFullName : String) (template : List PVal) :
    List BaseC → Except GErr Unit
  | [] => .ok ()
  | b :: rest =>
    match checkOne valName valFullName template b with
    | .error e => .error e
    | .ok _ => checkCovers valName valFullName template rest

/-- The sequence of namespaced bare type parameters a parameterized base
exposes, for the C3 branch of `compute_template`. -/
def baseSeq (valFullName : String) (b : BaseC) : Except GErr (List PVal) :=
  let items : Except GErr (List PVal) := b.template.mapM (fun nm =>
    match b.getFtp nm with
    | none => Except.error GErr.attrErr
    | some p => Except.ok p)
  items.map
    (fun ps => (ps.filter PVal.isTypeParameter).map (fun p => p.withModule valFullName))

def collectSeqs (valFullName : String) :
    List BaseC → Except GErr (List (List PVal))
  | [] => .ok []
  | b :: rest =>
    if b.isParam then
      match baseSeq valFullName b with
      | .error e => .error e
      | .ok s =>
        match collectSeqs valFullName rest with
        | .error e => .error e
        | .ok ss => .ok (s :: ss)
    else collectSeqs valFullName rest

/-- Embedding of `abstract_utils.compute_template` for an interpreter class
with already-resolved bases.  `valName` is the short class name (used in
error messages), `valFullName` the full name (used for namespacing). -/
def compute_template (valName valFullName : String) (bases : List BaseC) :
    Except GErr (List PVal) :=
  match genericLoop valName valFullName bases [] with
  | .error e => .error e
  | .ok template =>
    if template ≠ [] then
      match checkCovers valName valFullName template bases with
      | .error e => .error e
      | .ok _ => .ok template
    else
      match collectSeqs valFullName bases with
      | .error e => .error e
      | .ok seqs =>
        match c3Merge seqs with
        | some merged => .ok (template ++ merged)
        | none =>
          .error (.generic valName
            ("Illegal type parameter order in class " ++ valName))

/-- Example base `typing.Generic[T, U]` for the template claims. -/
def genericTU : BaseC :=
  ⟨"typing.Generic", false, true, ["T", "U"],
   [("T", PVal.tp ⟨"T", none⟩), ("U", PVal.tp ⟨"U", none⟩)]⟩

/-- Example parameterized base using only the type parameter `T`. -/
def subsetBase : BaseC :=
  ⟨"m.B", false, true, ["T"], [("T", PVal.tp ⟨"T", none⟩)]⟩

/-- Example parameterized base using a type parameter `V` that is not in the
template. -/
def outsideBase : BaseC :=
  ⟨"m.D", false, true, ["V"], [("V", PVal.tp ⟨"V", none⟩)]⟩

/-! ### Abstract methods (`class_mixin.Class._init_abstract_methods`)

A class is summarized by the attribute names it declares itself (its dict
membership) and the value of its `abstract_methods` field at the time the
sweep consults it (for ancestors this is their already-computed set; for
the class being initialized it is its own-declared abstract methods). -/

structure ClsD where
  attrs : Finset String
  absM : Finset String
deriving DecidableEq

/-- One step of the sweep: remove the methods the class implements without
re-marking abstract, then add the abstract methods the class declares. -/
def absStep (acc : Finset String) (c : ClsD) : Finset String :=
  (acc.filter (fun m => m ∉ c.attrs ∨ m ∈ c.absM)) ∪
    (c.absM.filter (fun m => m ∈ c.attrs))

/-- Embedding of `_init_abstract_methods`: a single sweep over the reversed
MRO (most general ancestor first, the class itself last). -/
def initAbstractMethods (mro : List ClsD) : Finset String :=
  mro.reverse.foldl absStep ∅

/-- The `object` class of the running example. -/
def objC : ClsD := ⟨∅, ∅⟩

/-- `Base` declares abstract `f`; its computed abstract-method set. -/
def baseOwn : ClsD := ⟨{"f"}, {"f"}⟩
def baseAbs : Finset String := initAbstractMethods [baseOwn, objC]
def baseC : ClsD := ⟨{"f"}, baseAbs⟩

/-- `Mid(Base)` implements `f` and declares nothing abstract. -/
def midOwn : ClsD := ⟨{"f"}, ∅⟩
def midAbs : Finset String := initAbstractMethods [midOwn, baseC, objC]
def midC : ClsD := ⟨{"f"}, midAbs⟩

/-- `Leaf(Mid)` declares nothing. -/
def leafOwn : ClsD := ⟨∅, ∅⟩
def leafAbs : Finset String := initAbstractMethods [leafOwn, midC, baseC, objC]

/-- `Leaf2(Base)` declares and implements nothing. -/
def leaf2Own : ClsD := ⟨∅, ∅⟩
def leaf2Abs : Finset String := initAbstractMethods [leaf2Own, baseC, objC]

/-! ## Theorems -/

/-! ### Claim C3: empty variable set -/

/-- Claim C3: for every node, calling `get_views` with an empty set of
variables yields an empty sequence of views (and leaves no variables to
mutate).  The hypothesis `0 < limit` says the complexity cap is positive. -/
theorem get_views_empty_vars (limit defaultData nodeId : Nat)
    (node : List Binding → Bool)
    (consumer : List (Nat × Binding) → List Nat × Bool)
    (h : 0 < limit) :
    get_views limit defaultData nodeId node consumer [] = ([], []) := by
  have hp : ¬ limit < productSize [] := by
    simp [productSize]
    omega
  simp [get_views, hp, deepVariableProduct, viewLoop]

/-- Witness for C3 at a concrete input. -/
theorem get_views_empty_vars_witness :
    get_views 1 0 0 (fun _ => true) consumerNone [] = ([], []) :=
  get_views_empty_vars 1 0 0 (fun _ => true) consumerNone (by decide)

/-! ### Claim C8: mutation batching -/

theorem applyLoop_pos (node : Nat) (num : Nat) (applied : List (Nat × Mutation))
    (created : Nat) (muts : List Mutation) (h : num ≠ 0) :
    applyLoop node num applied created muts =
      (node, applied ++ muts.map (fun m => (node, m)), created) := by
  induction muts generalizing num applied with
  | nil => simp [applyLoop]
  | cons m rest ih =>
    simp only [applyLoop, h, if_neg]
    rw [ih (num + 1) (applied ++ [(node, m)]) (by omega)]
    simp

/-- Claim C8: `apply_mutations` returns the input node unchanged on an empty
batch, and on a nonempty batch creates exactly one new node — on the first
mutation only — against which every mutation of the batch is applied. -/
theorem apply_mutations_batching (node : Nat) (muts : List Mutation) :
    (muts = [] → apply_mutations node muts = (node, [], 0)) ∧
    (muts ≠ [] →
      (apply_mutations node muts).1 = connectNew node ∧
      (apply_mutations node muts).2.2 = 1 ∧
      (apply_mutations node muts).2.1 =
        muts.map (fun m => (connectNew node, m))) := by
  constructor
  · intro h
    subst h
    rfl
  · intro h
    match muts with
    | [] => exact absurd rfl h
    | m :: rest =>
      show (applyLoop node 0 [] 0 (m :: rest)).1 = connectNew node ∧ _
      simp only [apply_mutations, applyLoop, if_pos, Nat.zero_add, List.nil_append,
        reduceIte]
      rw [applyLoop_pos (connectNew node) 1 [(connectNew node, m)] 1 rest (by omega)]
      simp

/-- Witness for C8: an empty batch and a two-mutation batch at concrete
inputs. -/
theorem apply_mutations_batching_witness :
    apply_mutations 5 [] = (5, [], 0) ∧
    (apply_mutations 5 [⟨1, "a", 2⟩, ⟨3, "b", 4⟩]).1 = connectNew 5 ∧
    (apply_mutations 5 [⟨1, "a", 2⟩, ⟨3, "b", 4⟩]).2.2 = 1 ∧
    (apply_mutations 5 [⟨1, "a", 2⟩, ⟨3, "b", 4⟩]).2.1 =
      [⟨1, "a", 2⟩, ⟨3, "b", 4⟩].map (fun m => (connectNew 5, m)) :=
  ⟨(apply_mutations_batching 5 []).1 rfl,
   (apply_mutations_batching 5 [⟨1, "a", 2⟩, ⟨3, "b", 4⟩]).2 (by simp)⟩

/-! ### Claim C5: merging two types bound to one type-parameter name -/

/-- Claim C5: `_merge_type` returns the other operand unchanged when one
side is absent or the universal placeholder; returns the more specific
operand when one side appears in the linearization of the other; and raises
`GenericTypeError` naming the parameter in every other case. -/
theorem merge_type_rules (t0 t1 : Option TVal) (name cls : String) :
    ((t0 = none ∨ ∃ s, t0 = some s ∧ s.unsolv) →
      _merge_type t0 t1 name cls = .ok t1) ∧
    ((∃ s, t0 = some s ∧ ¬ s.unsolv) →
      (t1 = none ∨ ∃ s, t1 = some s ∧ s.unsolv) →
        _merge_type t0 t1 name cls = .ok t0) ∧
    (∀ s0 s1, t0 = some s0 → t1 = some s1 → ¬ s0.unsolv → ¬ s1.unsolv →
      (s0.id ∈ s1.mro → _merge_type t0 t1 name cls = .ok t1) ∧
      (s0.id ∉ s1.mro → s1.id ∈ s0.mro → _merge_type t0 t1 name cls = .ok t0) ∧
      (s0.id ∉ s1.mro → s1.id ∉ s0.mro →
        _merge_type t0 t1 name cls =
          .error (cls, "Conflicting value for TypeVar " ++ name))) := by
  refine ⟨?_, ?_, ?_⟩
  · rintro (rfl | ⟨s, rfl, hs⟩)
    · rfl
    · simp [_merge_type, hs]
  · rintro ⟨s, rfl, hs⟩ (rfl | ⟨s1, rfl, hs1⟩)
    · simp [_merge_type, hs]
    · simp [_merge_type, hs, hs1]
  · rintro s0 s1 rfl rfl h0 h1
    refine ⟨?_, ?_, ?_⟩
    · intro hmem
      simp [_merge_type, h0, h1, hmem]
    · intro hn hmem
      simp [_merge_type, h0, h1, hn, hmem]
    · intro hn0 hn1
      simp [_merge_type, h0, h1, hn0, hn1]

/-- Witness for C5: merging with the wildcard yields the concrete type, an
ancestor-or-self pair yields the subclass, and unrelated concrete types for
parameter `K` yield the conflict error. -/
theorem merge_type_rules_witness :
    _merge_type (some ⟨0, true, [0]⟩) (some ⟨1, false, [1]⟩) "K" "C" =
      .ok (some ⟨1, false, [1]⟩) ∧
    _merge_type (some ⟨2, false, [2]⟩) (some ⟨3, false, [3, 2]⟩) "K" "C" =
      .ok (some ⟨3, false, [3, 2]⟩) ∧
    _merge_type (some ⟨4, false, [4]⟩) (some ⟨5, false, [5]⟩) "K" "C" =
      .error ("C", "Conflicting value for TypeVar " ++ "K") :=
  ⟨(merge_type_rules (some ⟨0, true, [0]⟩) (some ⟨1, false, [1]⟩) "K" "C").1
      (Or.inr ⟨_, rfl, rfl⟩),
   ((merge_type_rules (some ⟨2, false, [2]⟩) (some ⟨3, false, [3, 2]⟩) "K" "C").2.2
      _ _ rfl rfl (by decide) (by decide)).1 (by decide),
   ((merge_type_rules (some ⟨4, false, [4]⟩) (some ⟨5, false, [5]⟩) "K" "C").2.2
      _ _ rfl rfl (by decide) (by decide)).2.2 (by decide) (by decide)⟩

/-! ### Claim C7: abstract-method propagation -/

/-- Claim C7: the abstract-method set is computed by a single sweep over the
linearization from the most general ancestor to the class itself; each step
removes names the class implements without re-marking abstract and adds the
abstract methods it declares.  For Base declaring abstract `f`, Mid(Base)
implementing `f` and Leaf(Mid) declaring nothing, Leaf has no abstract
methods, while Leaf2(Base) implementing nothing has `{f}`. -/
theorem abstract_methods_propagation :
    (∀ (c : ClsD) (cs : List ClsD),
      initAbstractMethods (c :: cs) = absStep (initAbstractMethods cs) c) ∧
    (∀ (acc : Finset String) (c : ClsD) (m : String),
      m ∈ absStep acc c ↔
        ((m ∈ acc ∧ (m ∉ c.attrs ∨ m ∈ c.absM)) ∨ (m ∈ c.absM ∧ m ∈ c.attrs))) ∧
    leafAbs = ∅ ∧ leaf2Abs = {"f"} := by
  refine ⟨?_, ?_, by decide, by decide⟩
  · intro c cs
    simp [initAbstractMethods, List.foldl_append]
  · intro acc c m
    simp [absStep, Finset.mem_union, Finset.mem_filter]

/-! ### Claim C2: view counts without skipping -/

theorem length_filter_not {α : Type} (l : List α) (p : α → Bool) :
    (l.filter p).length + (l.filter (fun a => !p a)).length = l.length := by
  induction l with
  | nil => simp
  | cons a l ih =>
    rcases Bool.eq_false_or_eq_true (p a) with h | h <;>
      simp [List.filter_cons, h] <;> omega

theorem foldl_dictInsert_fresh (c : List Binding) (acc : List (Nat × Binding))
    (hacc : ∀ b ∈ c, ∀ p ∈ acc, p.1 ≠ b.var)
    (hnd : (c.map Binding.var).Nodup) :
    c.foldl (fun m b => dictInsert m b.var b) acc
      = acc ++ c.map (fun b => (b.var, b)) := by
  induction c generalizing acc with
  | nil => simp
  | cons b rest ih =>
    have hfresh : acc.any (fun p => decide (p.1 = b.var)) = false := by
      simp only [List.any_eq_false, decide_eq_true_eq]
      exact fun p hp => hacc b (by simp) p hp
    have hstep : dictInsert acc b.var b = acc ++ [(b.var, b)] := by
      simp [dictInsert, hfresh]
    have hnd' : ((b :: rest).map Binding.var).Nodup := hnd
    simp only [List.map_cons, List.nodup_cons] at hnd'
    simp only [List.foldl_cons, hstep]
    rw [ih (acc ++ [(b.var, b)]) ?_ hnd'.2]
    · simp
    · intro b' hb' p hp
      rcases List.mem_append.mp hp with h | h
      · exact hacc b' (List.mem_cons_of_mem _ hb') p h
      · have hpv : p = (b.var, b) := by simpa using h
        subst hpv
        intro e
        apply hnd'.1
        rw [show b.var = b'.var from e]
        exact List.mem_map_of_mem Binding.var hb'

theorem mkView_eq_of_nodup (c : List Binding)
    (hnd : (c.map Binding.var).Nodup) :
    mkView c = c.map (fun b => (b.var, b)) := by
  simpa [mkView] using foldl_dictInsert_fresh c [] (by simp) hnd

theorem mkView_pair_values (p q : Binding) (hpq : p.var ≠ q.var) :
    (mkView [p, q]).map Prod.snd = [p, q] := by
  rw [mkView_eq_of_nodup]
  · simp
  · simp [hpq]

/-- With a consumer that never requests skipping, `get_views` yields every
combination the node accepts, as a view dict. -/
theorem viewLoop_noskip (node : List Binding → Bool)
    (combos : List (List Binding)) :
    viewLoop node consumerNone combos []
      = (combos.filter (fun c => node ((mkView c).map Prod.snd))).map mkView := by
  induction combos with
  | nil => rfl
  | cons c rest ih =>
    rcases Bool.eq_false_or_eq_true (node ((mkView c).map Prod.snd)) with h | h
    · simp [viewLoop, consumerNone, h, List.filter_cons, ih]
    · simp [viewLoop, consumerNone, h, List.filter_cons, ih]

/-- Claim C2: with variables of 2 and 3 bindings, a node accepting every
combination and a consumer that never skips, `get_views` yields exactly 6
views; when the node rejects exactly one combination, exactly 5. -/
theorem get_views_view_count (limit defaultData nodeId : Nat)
    (v1 v2 : Variable) (node : List Binding → Bool)
    (h1 : v1.bindings.length = 2) (h2 : v2.bindings.length = 3)
    (hid : v1.id ≠ v2.id)
    (hb1 : ∀ b ∈ v1.bindings, b.var = v1.id)
    (hb2 : ∀ b ∈ v2.bindings, b.var = v2.id)
    (hlim : ¬ limit < productSize [v1, v2]) :
    ((∀ c ∈ deepVariableProduct [v1, v2], node c = true) →
      (get_views limit defaultData nodeId node consumerNone [v1, v2]).1.length = 6) ∧
    (((deepVariableProduct [v1, v2]).filter (fun c => !node c)).length = 1 →
      (get_views limit defaultData nodeId node consumerNone [v1, v2]).1.length = 5) := by
  obtain ⟨a, b, hv1⟩ := List.length_eq_two.mp h1
  obtain ⟨x, y, z, hv2⟩ := List.length_eq_three.mp h2
  have key : deepVariableProduct [v1, v2]
      = [[a, x], [a, y], [a, z], [b, x], [b, y], [b, z]] := by
    simp [deepVariableProduct, bindingProduct, hv1, hv2]
  have hfst : (get_views limit defaultData nodeId node consumerNone [v1, v2]).1
      = viewLoop node consumerNone (deepVariableProduct [v1, v2]) [] := by
    simp [get_views, hlim]
  have hcongr : ∀ c ∈ deepVariableProduct [v1, v2],
      node ((mkView c).map Prod.snd) = node c := by
    intro c hc
    rw [key] at hc
    have hvals : ∀ p ∈ v1.bindings, ∀ q ∈ v2.bindings,
        (mkView [p, q]).map Prod.snd = [p, q] := by
      intro p hp q hq
      exact mkView_pair_values p q (by rw [hb1 p hp, hb2 q hq]; exact hid)
    have hma : a ∈ v1.bindings := by simp [hv1]
    have hmb : b ∈ v1.bindings := by simp [hv1]
    have hmx : x ∈ v2.bindings := by simp [hv2]
    have hmy : y ∈ v2.bindings := by simp [hv2]
    have hmz : z ∈ v2.bindings := by simp [hv2]
    simp only [List.mem_cons, List.not_mem_nil, or_false] at hc
    rcases hc with rfl | rfl | rfl | rfl | rfl | rfl <;>
      rw [hvals _ (by assumption) _ (by assumption)]
  have hlen : (get_views limit defaultData nodeId node consumerNone [v1, v2]).1.length
      = ((deepVariableProduct [v1, v2]).filter (fun c => node c)).length := by
    rw [hfst, viewLoop_noskip, List.length_map, List.filter_congr hcongr]
  constructor
  · intro hall
    rw [hlen, List.filter_eq_self.mpr hall, key]
    rfl
  · intro hone
    have := length_filter_not (deepVariableProduct [v1, v2]) (fun c => node c)
    rw [hone] at this
    have h6 : (deepVariableProduct [v1, v2]).length = 6 := by rw [key]; rfl
    omega

/-- Witness for C2 at concrete variables: an accept-all node yields 6 views
and a node rejecting exactly one combination yields 5. -/
theorem get_views_view_count_witness :
    (get_views 100 99 0 (fun _ => true) consumerNone
      [⟨0, [⟨0, 10, 0, []⟩, ⟨0, 11, 0, []⟩]⟩,
       ⟨1, [⟨1, 20, 0, []⟩, ⟨1, 21, 0, []⟩, ⟨1, 22, 0, []⟩]⟩]).1.length = 6 ∧
    (get_views 100 99 0
      (fun c => !(c = [⟨0, 10, 0, []⟩, ⟨1, 20, 0, []⟩])) consumerNone
      [⟨0, [⟨0, 10, 0, []⟩, ⟨0, 11, 0, []⟩]⟩,
       ⟨1, [⟨1, 20, 0, []⟩, ⟨1, 21, 0, []⟩, ⟨1, 22, 0, []⟩]⟩]).1.length = 5 :=
  ⟨(get_views_view_count 100 99 0
      ⟨0, [⟨0, 10, 0, []⟩, ⟨0, 11, 0, []⟩]⟩
      ⟨1, [⟨1, 20, 0, []⟩, ⟨1, 21, 0, []⟩, ⟨1, 22, 0, []⟩]⟩
      (fun _ => true) rfl rfl (by decide)
      (by decide) (by decide) (by decide)).1 (by decide),
   (get_views_view_count 100 99 0
      ⟨0, [⟨0, 10, 0, []⟩, ⟨0, 11, 0, []⟩]⟩
      ⟨1, [⟨1, 20, 0, []⟩, ⟨1, 21, 0, []⟩, ⟨1, 22, 0, []⟩]⟩
      (fun c => !(c = [⟨0, 10, 0, []⟩, ⟨1, 20, 0, []⟩])) rfl rfl (by decide)
      (by decide) (by decide) (by decide)).2 (by decide)⟩

/-! ### Claims C9 and C10: the too-complex fallback -/

/-- Claim C9: when the product of the variables is too complex, `get_views`
propagates no error and enumerates exactly one degenerate combination of a
single wildcard binding per variable: at most one view is yielded, namely
the view of the degenerate combination, yielded exactly when the node
accepts it. -/
theorem get_views_too_complex_fallback (limit defaultData nodeId : Nat)
    (vars : List Variable) (node : List Binding → Bool)
    (consumer : List (Nat × Binding) → List Nat × Bool)
    (h : limit < productSize vars) :
    (get_views limit defaultData nodeId node consumer vars).1
      = (if node ((mkView (degenCombo vars defaultData nodeId)).map Prod.snd)
         then [mkView (degenCombo vars defaultData nodeId)] else []) ∧
    (get_views limit defaultData nodeId node consumer vars).1.length ≤ 1 := by
  have hfst : (get_views limit defaultData nodeId node consumer vars).1
      = viewLoop node consumer [degenCombo vars defaultData nodeId] [] := by
    simp [get_views, h, degenCombo]
  rcases Bool.eq_false_or_eq_true
      (node ((mkView (degenCombo vars defaultData nodeId)).map Prod.snd)) with hn | hn <;>
    rw [hfst] <;> constructor <;> simp [viewLoop, hn]

/-- Witness for C9: two variables whose 6-combination product exceeds a cap
of 2 yield the single wildcard view. -/
theorem get_views_too_complex_fallback_witness :
    (get_views 2 99 7 (fun _ => true) consumerNone
      [⟨0, [⟨0, 10, 0, []⟩, ⟨0, 11, 0, []⟩]⟩,
       ⟨1, [⟨1, 20, 0, []⟩, ⟨1, 21, 0, []⟩, ⟨1, 22, 0, []⟩]⟩]).1
      = (if (fun (_ : List Binding) => true)
            ((mkView (degenCombo
              [⟨0, [⟨0, 10, 0, []⟩, ⟨0, 11, 0, []⟩]⟩,
               ⟨1, [⟨1, 20, 0, []⟩, ⟨1, 21, 0, []⟩, ⟨1, 22, 0, []⟩]⟩] 99 7)).map Prod.snd)
         then [mkView (degenCombo
              [⟨0, [⟨0, 10, 0, []⟩, ⟨0, 11, 0, []⟩]⟩,
               ⟨1, [⟨1, 20, 0, []⟩, ⟨1, 21, 0, []⟩, ⟨1, 22, 0, []⟩]⟩] 99 7)] else []) :=
  (get_views_too_complex_fallback 2 99 7
      [⟨0, [⟨0, 10, 0, []⟩, ⟨0, 11, 0, []⟩]⟩,
       ⟨1, [⟨1, 20, 0, []⟩, ⟨1, 21, 0, []⟩, ⟨1, 22, 0, []⟩]⟩]
      (fun _ => true) consumerNone (by decide)).1

/-- Claim C10: when the too-complex fallback is taken, every input variable
is mutated: one new binding carrying the default (wildcard) data and an
empty source set is appended to it at the given node. -/
theorem get_views_too_complex_mutates (limit defaultData nodeId : Nat)
    (vars : List Variable) (node : List Binding → Bool)
    (consumer : List (Nat × Binding) → List Nat × Bool)
    (h : limit < productSize vars) :
    List.Forall₂ (fun v w : Variable =>
        w.id = v.id ∧ w.bindings = v.bindings ++ [Binding.mk v.id defaultData nodeId []])
      vars (get_views limit defaultData nodeId node consumer vars).2 := by
  have hsnd : (get_views limit defaultData nodeId node consumer vars).2
      = vars.map (fun v =>
          { v with bindings := v.bindings ++ [Binding.mk v.id defaultData nodeId []] }) := by
    simp [get_views, h]
  rw [hsnd]
  clear hsnd h
  induction vars with
  | nil => exact List.Forall₂.nil
  | cons v rest ih => exact List.Forall₂.cons ⟨rfl, rfl⟩ ih

/-- Witness for C10: the same concrete fallback input; both variables end
with the wildcard binding appended. -/
theorem get_views_too_complex_mutates_witness :
    List.Forall₂ (fun v w : Variable =>
        w.id = v.id ∧ w.bindings = v.bindings ++ [Binding.mk v.id 99 7 []])
      [⟨0, [⟨0, 10, 0, []⟩, ⟨0, 11, 0, []⟩]⟩,
       ⟨1, [⟨1, 20, 0, []⟩, ⟨1, 21, 0, []⟩, ⟨1, 22, 0, []⟩]⟩]
      (get_views 2 99 7 (fun _ => true) consumerNone
        [⟨0, [⟨0, 10, 0, []⟩, ⟨0, 11, 0, []⟩]⟩,
         ⟨1, [⟨1, 20, 0, []⟩, ⟨1, 21, 0, []⟩, ⟨1, 22, 0, []⟩]⟩]).2 :=
  get_views_too_complex_mutates 2 99 7
    [⟨0, [⟨0, 10, 0, []⟩, ⟨0, 11, 0, []⟩]⟩,
     ⟨1, [⟨1, 20, 0, []⟩, ⟨1, 21, 0, []⟩, ⟨1, 22, 0, []⟩]⟩]
    (fun _ => true) consumerNone (by decide)

/-! ### Claim C4: wrapper restoration in `compute_mro` -/

theorem lookupAssoc_append (m1 m2 : List (CVal × CVal)) (k : CVal) :
    lookupAssoc (m1 ++ m2) k
      = match lookupAssoc m1 k with
        | some w => some w
        | none => lookupAssoc m2 k := by
  induction m1 with
  | nil => simp [lookupAssoc]
  | cons p rest ih =>
    by_cases h : p.1 = k
    · simp [lookupAssoc, h]
    · simp only [List.cons_append, lookupAssoc, if_neg h]
      exact ih

theorem lookupAssoc_of_any (m : List (CVal × CVal)) (k : CVal)
    (h : m.any (fun p => decide (p.1 = k)) = true) :
    ∃ w, lookupAssoc m k = some w := by
  induction m with
  | nil => simp at h
  | cons p rest ih =>
    by_cases hp : p.1 = k
    · exact ⟨p.2, by simp [lookupAssoc, hp]⟩
    · simp only [List.any_cons, Bool.or_eq_true, decide_eq_true_eq] at h
      rcases h with h | h
      · exact absurd h hp
      · obtain ⟨w, hw⟩ := ih h
        exact ⟨w, by simp [lookupAssoc, hp, hw]⟩

theorem lookupAssoc_eq_none (m : List (CVal × CVal)) (k : CVal) :
    lookupAssoc m k = none ↔ m.any (fun p => decide (p.1 = k)) = false := by
  induction m with
  | nil => simp [lookupAssoc]
  | cons p rest ih =>
    by_cases hp : p.1 = k
    · simp [lookupAssoc, hp]
    · simp [lookupAssoc, hp, ih]

theorem lookupAssoc_map_replace (m : List (CVal × CVal)) (k0 v k : CVal) :
    lookupAssoc (m.map (fun p => if p.1 = k0 then (k0, v) else p)) k
      = if k = k0 then (lookupAssoc m k).map (fun _ => v)
        else lookupAssoc m k := by
  induction m with
  | nil => simp [lookupAssoc]
  | cons p rest ih =>
    by_cases hp : p.1 = k0
    · by_cases hk : k = k0
      · subst hk
        simp [lookupAssoc, hp]
      · have hk0 : ¬ k0 = k := fun e => hk e.symm
        have hpk : ¬ p.1 = k := by rw [hp]; exact hk0
        simp [lookupAssoc, hp, hpk, hk0, hk, ih]
    · by_cases hpk : p.1 = k
      · have hk : ¬ k = k0 := fun e => hp (by rw [hpk, e])
        simp [lookupAssoc, hp, hpk, hk]
      · simp [lookupAssoc, hp, hpk, ih]

theorem lookupAssoc_dictInsertC (m : List (CVal × CVal)) (k0 v k : CVal) :
    lookupAssoc (dictInsertC m k0 v) k
      = if k = k0 then some v else lookupAssoc m k := by
  by_cases h : m.any (fun p => decide (p.1 = k0)) = true
  · rw [dictInsertC, if_pos h, lookupAssoc_map_replace]
    by_cases hk : k = k0
    · subst hk
      obtain ⟨w, hw⟩ := lookupAssoc_of_any m k h
      simp [hw]
    · simp [hk]
  · have hfalse : m.any (fun p => decide (p.1 = k0)) = false := by
      rcases Bool.eq_false_or_eq_true (m.any (fun p => decide (p.1 = k0))) with e | e
      · exact absurd e h
      · exact e
    rw [dictInsertC, if_neg h, lookupAssoc_append]
    by_cases hk : k = k0
    · subst hk
      have hnone : lookupAssoc m k = none := (lookupAssoc_eq_none m k).mpr hfalse
      simp [hnone, lookupAssoc]
    · have hk0 : ¬ k0 = k := fun e => hk e.symm
      rcases e : lookupAssoc m k with _ | w <;> simp [e, lookupAssoc, hk, hk0]

theorem foldl_dictInsertC_flatten (rows : List (List CVal)) :
    buildAssoc rows
      = rows.flatten.foldl (fun m b => dictInsertC m (assocKey b) b) [] := by
  rw [buildAssoc]
  generalize ([] : List (CVal × CVal)) = init
  induction rows generalizing init with
  | nil => simp
  | cons row rest ih =>
    simp only [List.foldl_cons, List.flatten_cons, List.foldl_append]
    exact ih _

theorem lookupAssoc_foldl_eq_getLast (l : List CVal) (k : CVal) :
    lookupAssoc (l.foldl (fun m b => dictInsertC m (assocKey b) b) []) k
      = (l.filter (fun b => decide (assocKey b = k))).getLast? := by
  induction l using List.reverseRecOn with
  | nil => rfl
  | append_singleton l b ih =>
    rw [List.foldl_append, List.foldl_cons, List.foldl_nil, lookupAssoc_dictInsertC,
      List.filter_append]
    by_cases hk : k = assocKey b
    · rw [if_pos hk, List.filter_cons, if_pos (by simp [hk]), List.filter_nil]
      simp
    · rw [if_neg hk, List.filter_cons,
        if_neg (by simp; exact fun e => hk e.symm), List.filter_nil,
        List.append_nil, ih]

/-- The `base2cls` lookup restores the last association encountered across
the rows, not the first. -/
theorem lookupAssoc_buildAssoc (rows : List (List CVal)) (k : CVal) :
    lookupAssoc (buildAssoc rows) k = lastAssoc rows k := by
  rw [foldl_dictInsertC_flatten, lastAssoc]
  exact lookupAssoc_foldl_eq_getLast rows.flatten k

/-- Claim C4 (amended): after the C3 merge over unwrapped identities,
`compute_mro` restores for each merged entry the association encountered
LAST across the input lists (Python dict assignment overwrites), not the
first. -/
theorem compute_mro_restores_last_assoc (self : CVal) (bases : List ClassRec) :
    compute_mro self bases
      = (c3Merge ((mroRows self bases).map (fun row => row.map assocKey))).map
          (fun merged => merged.map
            (fun b => (lastAssoc (mroRows self bases) b).getD b)) := by
  simp only [compute_mro, lookupAssoc_buildAssoc]

/-- Claim C4 counterexample: the underlying class 1 is first associated with
wrapper `pc 10 1` (through the MRO of base A) and later with `pc 20 1`
(through the MRO of base B); `compute_mro` restores `pc 20 1`, not the first
association `pc 10 1`. -/
theorem compute_mro_first_assoc_cex :
    compute_mro (CVal.plain 4)
      [⟨CVal.plain 2, [CVal.plain 2, CVal.pc 10 1, CVal.plain 99]⟩,
       ⟨CVal.plain 3, [CVal.plain 3, CVal.pc 20 1, CVal.plain 99]⟩]
      = some [CVal.plain 4, CVal.plain 2, CVal.plain 3, CVal.pc 20 1, CVal.plain 99] ∧
    firstAssoc
      (mroRows (CVal.plain 4)
        [⟨CVal.plain 2, [CVal.plain 2, CVal.pc 10 1, CVal.plain 99]⟩,
         ⟨CVal.plain 3, [CVal.plain 3, CVal.pc 20 1, CVal.plain 99]⟩])
      (CVal.plain 1) = some (CVal.pc 10 1) ∧
    (CVal.pc 20 1 ≠ CVal.pc 10 1) := by
  refine ⟨by decide, by decide, by decide⟩

/-! ### Claim C6: templates from an explicit generic-marker base -/

theorem genericLoop_skip (valName valFullName : String) (l rest : List BaseC)
    (template : List PVal)
    (h : ∀ b ∈ l, b.full_name ≠ "typing.Generic") :
    genericLoop valName valFullName (l ++ rest) template
      = genericLoop valName valFullName rest template := by
  induction l with
  | nil => rfl
  | cons b l ih =>
    have hb : ¬ b.full_name = "typing.Generic" := h b (by simp)
    simp only [List.cons_append, genericLoop, if_neg hb]
    exact ih (fun b' hb' => h b' (by simp [hb']))

theorem genericLoop_single (valName valFullName : String)
    (l1 l2 : List BaseC) (g : BaseC) (ps : List PVal)
    (hg : g.full_name = "typing.Generic") (hpy : ¬ g.isPyTD = true)
    (hcollect : collectGenericParams valFullName g = .ok ps)
    (h1 : ∀ b ∈ l1, b.full_name ≠ "typing.Generic")
    (h2 : ∀ b ∈ l2, b.full_name ≠ "typing.Generic") :
    genericLoop valName valFullName (l1 ++ g :: l2) [] = .ok ps := by
  rw [genericLoop_skip valName valFullName l1 (g :: l2) [] h1]
  simp only [genericLoop, if_pos hg, if_neg hpy, ne_eq, not_true_eq_false,
    if_neg (by simp : ¬ ([] : List PVal) ≠ []), hcollect]
  have h := genericLoop_skip valName valFullName l2 [] ([] ++ ps) h2
  rw [List.append_nil] at h
  rw [h]
  rfl

theorem genericLoop_multiple (valName valFullName : String)
    (l1 l2 l3 : List BaseC) (g1 g2 : BaseC) (ps : List PVal)
    (hg1 : g1.full_name = "typing.Generic") (hpy1 : ¬ g1.isPyTD = true)
    (hcollect : collectGenericParams valFullName g1 = .ok ps) (hps : ps ≠ [])
    (h1 : ∀ b ∈ l1, b.full_name ≠ "typing.Generic")
    (h2 : ∀ b ∈ l2, b.full_name ≠ "typing.Generic")
    (hg2 : g2.full_name = "typing.Generic") (hpy2 : ¬ g2.isPyTD = true) :
    genericLoop valName valFullName (l1 ++ g1 :: (l2 ++ g2 :: l3)) []
      = .error (.generic valName "Cannot inherit from Generic[...] multiple times") := by
  rw [genericLoop_skip valName valFullName l1 (g1 :: (l2 ++ g2 :: l3)) [] h1]
  simp only [genericLoop, if_pos hg1, if_neg hpy1,
    if_neg (by simp : ¬ ([] : List PVal) ≠ []), hcollect]
  rw [genericLoop_skip valName valFullName l2 (g2 :: l3) ([] ++ ps) h2]
  simp only [genericLoop, if_pos hg2, if_neg hpy2, List.nil_append]
  rw [if_pos hps]

theorem checkCovers_ok (valName valFullName : String) (t : List PVal)
    (l : List BaseC)
    (h : ∀ b ∈ l, checkOne valName valFullName t b = .ok ()) :
    checkCovers valName valFullName t l = .ok () := by
  induction l with
  | nil => rfl
  | cons b l ih =>
    simp only [checkCovers, h b (by simp)]
    exact ih (fun b' hb' => h b' (by simp [hb']))

theorem checkCovers_error (valName valFullName : String) (t : List PVal)
    (m1 m2 : List BaseC) (bad : BaseC) (e : GErr)
    (h1 : ∀ b ∈ m1, checkOne valName valFullName t b = .ok ())
    (hbad : checkOne valName valFullName t bad = .error e) :
    checkCovers valName valFullName t (m1 ++ bad :: m2) = .error e := by
  induction m1 with
  | nil =>
    simp only [List.nil_append, checkCovers, hbad]
  | cons b l ih =>
    simp only [List.cons_append, checkCovers, h1 b (by simp)]
    exact ih (fun b' hb' => h1 b' (by simp [hb']))

theorem checkBaseItems_ok (valName valFullName : String) (t : List PVal)
    (b : BaseC) (items : List String)
    (h : ∀ nm ∈ items, ∃ p, b.getFtp nm = some p ∧
      (p.isTypeParameter = true → p.withModule valFullName ∈ t)) :
    checkBaseItems valName valFullName t b items = .ok () := by
  induction items with
  | nil => rfl
  | cons nm rest ih =>
    obtain ⟨p, hp, hmem⟩ := h nm (by simp)
    have hrest := ih (fun nm' hnm' => h nm' (by simp [hnm']))
    by_cases htp : p.isTypeParameter = true
    · simp only [checkBaseItems, hp, if_pos htp, if_pos (hmem htp)]
      exact hrest
    · simp only [checkBaseItems, hp, if_neg htp]
      exact hrest

theorem checkBaseItems_error (valName valFullName : String) (t : List PVal)
    (b : BaseC) (nms1 nms2 : List String) (nm : String) (p : PVal)
    (h1 : ∀ nm' ∈ nms1, ∃ q, b.getFtp nm' = some q ∧
      (q.isTypeParameter = true → q.withModule valFullName ∈ t))
    (hp : b.getFtp nm = some p) (htp : p.isTypeParameter = true)
    (hnot : p.withModule valFullName ∉ t) :
    checkBaseItems valName valFullName t b (nms1 ++ nm :: nms2)
      = .error (.generic valName "Generic should contain all the type variables") := by
  induction nms1 with
  | nil =>
    simp only [List.nil_append, checkBaseItems, hp, if_pos htp, if_neg hnot]
  | cons nm' rest ih =>
    obtain ⟨q, hq, hmem⟩ := h1 nm' (by simp)
    have hrest := ih (fun x hx => h1 x (by simp [hx]))
    by_cases hqt : q.isTypeParameter = true
    · simp only [List.cons_append, checkBaseItems, hq, if_pos hqt, if_pos (hmem hqt)]
      exact hrest
    · simp only [List.cons_append, checkBaseItems, hq, if_neg hqt]
      exact hrest

/-- Claim C6: when a class declares `typing.Generic[...]` with parameters,
that ordered namespaced list is the template, a second generic-marker base
raises `GenericTypeError`, and a parameterized base using a bare type
parameter absent from the list raises `GenericTypeError`, while bases using
only a subset of the listed parameters succeed. -/
theorem compute_template_generic_marker (valName valFullName : String)
    (l1 l2 : List BaseC) (g : BaseC) (ps : List PVal)
    (hg : g.full_name = "typing.Generic") (hpy : ¬ g.isPyTD = true)
    (hcollect : collectGenericParams valFullName g = .ok ps) (hps : ps ≠ [])
    (h1 : ∀ b ∈ l1, b.full_name ≠ "typing.Generic") :
    ((∀ b ∈ l2, b.full_name ≠ "typing.Generic") →
      (∀ b ∈ l1 ++ l2, checkOne valName valFullName ps b = .ok ()) →
      compute_template valName valFullName (l1 ++ g :: l2) = .ok ps) ∧
    (∀ (g2 : BaseC) (l3 : List BaseC),
      (∀ b ∈ l2, b.full_name ≠ "typing.Generic") →
      g2.full_name = "typing.Generic" → ¬ g2.isPyTD = true →
      compute_template valName valFullName (l1 ++ g :: (l2 ++ g2 :: l3))
        = .error (.generic valName "Cannot inherit from Generic[...] multiple times")) ∧
    (∀ (bad : BaseC) (l3 : List BaseC) (nms1 nms2 : List String)
        (nm : String) (p : PVal),
      (∀ b ∈ l2 ++ bad :: l3, b.full_name ≠ "typing.Generic") →
      (∀ b ∈ l1 ++ l2, checkOne valName valFullName ps b = .ok ()) →
      bad.isParam = true → bad.template = nms1 ++ nm :: nms2 →
      (∀ nm' ∈ nms1, ∃ q, bad.getFtp nm' = some q ∧
        (q.isTypeParameter = true → q.withModule valFullName ∈ ps)) →
      bad.getFtp nm = some p → p.isTypeParameter = true →
      p.withModule valFullName ∉ ps →
      compute_template valName valFullName (l1 ++ g :: (l2 ++ bad :: l3))
        = .error (.generic valName "Generic should contain all the type variables")) := by
  refine ⟨?_, ?_, ?_⟩
  · intro h2 hcheck
    have hloop := genericLoop_single valName valFullName l1 l2 g ps hg hpy hcollect h1 h2
    have hcov : checkCovers valName valFullName ps (l1 ++ g :: l2) = .ok () := by
      apply checkCovers_ok
      intro b hb
      rcases List.mem_append.mp hb with hb | hb
      · exact hcheck b (List.mem_append.mpr (Or.inl hb))
      · rcases List.mem_cons.mp hb with rfl | hb
        · simp [checkOne, hg]
        · exact hcheck b (List.mem_append.mpr (Or.inr hb))
    simp only [compute_template, hloop, if_pos hps, hcov]
  · intro g2 l3 h2 hg2 hpy2
    have hloop := genericLoop_multiple valName valFullName l1 l2 l3 g g2 ps
      hg hpy hcollect hps h1 h2 hg2 hpy2
    simp only [compute_template, hloop]
  · intro bad l3 nms1 nms2 nm p h23 hclean hparam hitems hpre hp htp hnot
    have h2 : ∀ b ∈ l2, b.full_name ≠ "typing.Generic" :=
      fun b hb => h23 b (List.mem_append.mpr (Or.inl hb))
    have hbadname : bad.full_name ≠ "typing.Generic" :=
      h23 bad (List.mem_append.mpr (Or.inr (by simp)))
    have hloop := genericLoop_single valName valFullName l1 (l2 ++ bad :: l3) g ps
      hg hpy hcollect h1 h23
    have hbaditems :
        checkBaseItems valName valFullName ps bad bad.template
          = .error (.generic valName "Generic should contain all the type variables") := by
      rw [hitems]
      exact checkBaseItems_error valName valFullName ps bad nms1 nms2 nm p hpre hp htp hnot
    have hbadone :
        checkOne valName valFullName ps bad
          = .error (.generic valName "Generic should contain all the type variables") := by
      simp only [checkOne, if_neg hbadname, if_pos hparam]
      exact hbaditems
    have hcov :
        checkCovers valName valFullName ps (l1 ++ g :: (l2 ++ bad :: l3))
          = .error (.generic valName "Generic should contain all the type variables") := by
      have hsplit : l1 ++ g :: (l2 ++ bad :: l3) = (l1 ++ g :: l2) ++ bad :: l3 := by
        simp
      rw [hsplit]
      apply checkCovers_error
      · intro b hb
        rcases List.mem_append.mp hb with hb | hb
        · exact hclean b (List.mem_append.mpr (Or.inl hb))
        · rcases List.mem_cons.mp hb with rfl | hb
          · simp [checkOne, hg]
          · exact hclean b (List.mem_append.mpr (Or.inr hb))
      · exact hbadone
    simp only [compute_template, hloop, if_pos hps, hcov]

/-- Witness for C6: a class with template `{T, U}` and a base using only
`{T}` succeeds with exactly the namespaced declared list; a second
generic-marker base errors; a base using an absent `V` errors. -/
theorem compute_template_generic_marker_witness :
    compute_template "C" "m.C" ([subsetBase] ++ genericTU :: [])
      = .ok [PVal.tp ⟨"T", some "m.C"⟩, PVal.tp ⟨"U", some "m.C"⟩] ∧
    compute_template "C" "m.C" ([] ++ genericTU :: ([] ++ genericTU :: []))
      = .error (.generic "C" "Cannot inherit from Generic[...] multiple times") ∧
    compute_template "C" "m.C" ([] ++ genericTU :: ([] ++ outsideBase :: []))
      = .error (.generic "C" "Generic should contain all the type variables") :=
  ⟨(compute_template_generic_marker "C" "m.C" [subsetBase] [] genericTU
      [PVal.tp ⟨"T", some "m.C"⟩, PVal.tp ⟨"U", some "m.C"⟩]
      rfl (by decide) rfl (by decide) (by decide)).1 (by decide)
      (by intro b hb; simp at hb; subst hb; rfl),
   ((compute_template_generic_marker "C" "m.C" [] [] genericTU
      [PVal.tp ⟨"T", some "m.C"⟩, PVal.tp ⟨"U", some "m.C"⟩]
      rfl (by decide) rfl (by decide) (by decide)).2.1 genericTU []
      (by decide) rfl (by decide)),
   ((compute_template_generic_marker "C" "m.C" [] [] genericTU
      [PVal.tp ⟨"T", some "m.C"⟩, PVal.tp ⟨"U", some "m.C"⟩]
      rfl (by decide) rfl (by decide) (by decide)).2.2 outsideBase [] [] []
      "V" (PVal.tp ⟨"V", none⟩)
      (by decide) (by intro b hb; simp at hb) rfl rfl (by decide) rfl rfl
      (by decide))⟩

/-! ### Claim C1: the skip optimization of `get_views` -/

theorem mem_bindingProduct (vars : List Variable) (c : List Binding) :
    c ∈ bindingProduct vars
      ↔ List.Forall₂ (fun b v => b ∈ v.bindings) c vars := by
  induction vars generalizing c with
  | nil =>
    simp [bindingProduct, List.forall₂_nil_right_iff]
  | cons v vs ih =>
    simp only [bindingProduct, List.mem_flatMap, List.mem_map]
    constructor
    · rintro ⟨b, hb, c', hc', rfl⟩
      exact List.Forall₂.cons hb ((ih c').mp hc')
    · intro h
      cases h with
      | cons hb hc => exact ⟨_, hb, _, (ih _).mpr hc, rfl⟩

theorem prodCombo_map_var (vars : List Variable) (c : List Binding)
    (hc : List.Forall₂ (fun b v => b ∈ v.bindings) c vars)
    (hv : ∀ v ∈ vars, ∀ b ∈ v.bindings, b.var = v.id) :
    c.map Binding.var = vars.map Variable.id := by
  induction hc with
  | nil => rfl
  | @cons b v c' vs' hbv _ ih =>
    simp only [List.map_cons, List.cons.injEq]
    exact ⟨hv v (by simp) b hbv,
      ih (fun w hw => hv w (List.mem_cons_of_mem _ hw))⟩

theorem var_unique (c : List Binding) (X : Nat) (b y : Binding)
    (hnd : (c.map Binding.var).Nodup) (hb : b ∈ c) (hvb : b.var = X)
    (hy : y ∈ c) (hvy : y.var = X) : y = b := by
  induction c with
  | nil => cases hb
  | cons a rest ih =>
    simp only [List.map_cons, List.nodup_cons] at hnd
    rcases List.mem_cons.mp hb with rfl | hb' <;>
      rcases List.mem_cons.mp hy with h | hy'
    · exact h
    · exfalso
      apply hnd.1
      have : y.var ∈ rest.map Binding.var := List.mem_map_of_mem Binding.var hy'
      rwa [hvy, ← hvb] at this
    · exfalso
      subst h
      apply hnd.1
      have : b.var ∈ rest.map Binding.var := List.mem_map_of_mem Binding.var hb'
      rwa [hvb, ← hvy] at this
    · exact ih hnd.2 hb' hy'

theorem viewGet_map_pair_some (c : List Binding) (X : Nat) (b : Binding)
    (hb : b ∈ c) (hvar : b.var = X)
    (hnd : (c.map Binding.var).Nodup) :
    viewGet (c.map (fun x => (x.var, x))) X = some b := by
  induction c with
  | nil => cases hb
  | cons a rest ih =>
    simp only [List.map_cons, List.nodup_cons] at hnd
    rcases List.mem_cons.mp hb with rfl | hb'
    · simp [viewGet, hvar]
    · have hax : ¬ a.var = X := by
        intro e
        apply hnd.1
        have : b.var ∈ rest.map Binding.var := List.mem_map_of_mem Binding.var hb'
        rwa [hvar, ← e] at this
      simp only [List.map_cons, viewGet, if_neg hax]
      exact ih hb' hnd.2

theorem pair_mem_map_pair (c : List Binding) (X : Nat) (y : Binding) :
    (X, y) ∈ c.map (fun b => (b.var, b)) ↔ y ∈ c ∧ y.var = X := by
  simp only [List.mem_map, Prod.ext_iff]
  constructor
  · rintro ⟨b, hb, he, rfl⟩
    exact ⟨hb, he⟩
  · rintro ⟨hy, he⟩
    exact ⟨y, hy, he, rfl⟩

theorem filter_var_single (c : List Binding) (X : Nat) (b : Binding)
    (hb : b ∈ c) (hvar : b.var = X) (hnd : (c.map Binding.var).Nodup) :
    c.filter (fun x => decide (x.var = X)) = [b] := by
  induction c with
  | nil => cases hb
  | cons a rest ih =>
    simp only [List.map_cons, List.nodup_cons] at hnd
    rcases List.mem_cons.mp hb with rfl | hb'
    · have hrest : rest.filter (fun x => decide (x.var = X)) = [] := by
        rw [List.filter_eq_nil_iff]
        intro x hx
        simp only [decide_eq_true_eq]
        intro e
        apply hnd.1
        have : x.var ∈ rest.map Binding.var := List.mem_map_of_mem Binding.var hx
        rwa [e, ← hvar] at this
      simp [List.filter_cons, hvar, hrest]
    · have hax : ¬ a.var = X := by
        intro e
        apply hnd.1
        have : b.var ∈ rest.map Binding.var := List.mem_map_of_mem Binding.var hb'
        rwa [hvar, ← e] at this
      simp only [List.filter_cons, decide_eq_true_eq, if_neg hax]
      exact ih hb' hnd.2

theorem accessed_filter_single (c : List Binding) (X : Nat) (b : Binding)
    (hb : b ∈ c) (hvar : b.var = X) (hnd : (c.map Binding.var).Nodup) :
    (c.map (fun x => (x.var, x))).filter (fun p => decide (p.1 ∈ [X]))
      = [(X, b)] := by
  rw [List.filter_map]
  have hpred : ((fun p : Nat × Binding => decide (p.1 ∈ [X])) ∘
      (fun x : Binding => (x.var, x))) = fun x : Binding => decide (x.var = X) := by
    funext x
    simp [Function.comp, List.mem_singleton]
  rw [hpred, filter_var_single c X b hb hvar hnd]
  simp [hvar]

theorem any_map_general {α β : Type} (l : List α) (f : α → β) (p : β → Bool) :
    (l.map f).any p = l.any (fun a => p (f a)) := by
  induction l with
  | nil => rfl
  | cons a l ih => simp [List.any_cons, ih]

theorem guard_skipX (c : List Binding) (X : Nat) (b : Binding)
    (Y : List Binding)
    (hb : b ∈ c) (hvar : b.var = X) (hnd : (c.map Binding.var).Nodup) :
    ((Y.map (fun y => [(X, y)])).any
        (fun s => s.all (fun p => decide (p ∈ mkView c))))
      = decide (b ∈ Y) := by
  rw [mkView_eq_of_nodup c hnd, any_map_general]
  by_cases hmem : b ∈ Y
  · rw [decide_eq_true hmem]
    apply List.any_eq_true.mpr
    refine ⟨b, hmem, ?_⟩
    simp only [Function.comp, List.all_cons, List.all_nil, Bool.and_true,
      decide_eq_true_eq]
    exact (pair_mem_map_pair c X b).mpr ⟨hb, hvar⟩
  · rw [decide_eq_false hmem]
    apply List.any_eq_false.mpr
    intro y hy
    simp only [Function.comp, List.all_cons, List.all_nil, Bool.and_true,
      decide_eq_true_eq]
    intro hpm
    obtain ⟨hyc, hyv⟩ := (pair_mem_map_pair c X y).mp hpm
    exact hmem (var_unique c X b y hnd hb hvar hyc hyv ▸ hy)

/-- The invariant of the skip-optimized enumeration: with the consumer that
reads only `X` and always skips, and the committed accessed subsets being
exactly the pairs `(X, y)` for `y ∈ Y`, the yielded views choose pairwise
distinct bindings for `X`, none of them in `Y`, and together they are
exactly the surviving bindings of `X` outside `Y`. -/
theorem viewLoop_skipX (node : List Binding → Bool) (X : Nat)
    (combos : List (List Binding)) (Y : List Binding)
    (hc : ∀ c ∈ combos, (c.map Binding.var).Nodup ∧ X ∈ c.map Binding.var) :
    ((viewLoop node (consumerX X) combos (Y.map (fun y => [(X, y)]))).filterMap
        (fun v => viewGet v X)).length
      = (viewLoop node (consumerX X) combos (Y.map (fun y => [(X, y)]))).length ∧
    ((viewLoop node (consumerX X) combos (Y.map (fun y => [(X, y)]))).filterMap
        (fun v => viewGet v X)).Nodup ∧
    (∀ b ∈ (viewLoop node (consumerX X) combos (Y.map (fun y => [(X, y)]))).filterMap
        (fun v => viewGet v X), b ∉ Y) ∧
    ((viewLoop node (consumerX X) combos (Y.map (fun y => [(X, y)]))).filterMap
        (fun v => viewGet v X)).toFinset
      = survivors node X combos \ Y.toFinset := by
  induction combos generalizing Y with
  | nil =>
    simp [viewLoop, survivors]
  | cons c rest ih =>
    obtain ⟨hnd, hX⟩ := hc c (by simp)
    obtain ⟨b, hbmem, hbvar⟩ : ∃ b, b ∈ c ∧ b.var = X := by
      obtain ⟨b, hb, he⟩ := List.mem_map.mp hX
      exact ⟨b, hb, he⟩
    have hview := mkView_eq_of_nodup c hnd
    have hguard := guard_skipX c X b Y hbmem hbvar hnd
    have hget : viewGet (mkView c) X = some b := by
      rw [hview]
      exact viewGet_map_pair_some c X b hbmem hbvar hnd
    have hrest : ∀ c' ∈ rest, (c'.map Binding.var).Nodup ∧ X ∈ c'.map Binding.var :=
      fun c' hc' => hc c' (by simp [hc'])
    by_cases hmem : b ∈ Y
    · -- the X binding of this combination was already committed: skipped
      have hg : ((Y.map (fun y => [(X, y)])).any
          (fun s => s.all (fun p => decide (p ∈ mkView c)))) = true := by
        rw [hguard]
        exact decide_eq_true hmem
      have hstep : viewLoop node (consumerX X) (c :: rest) (Y.map (fun y => [(X, y)]))
          = viewLoop node (consumerX X) rest (Y.map (fun y => [(X, y)])) := by
        simp only [viewLoop, hg, if_true]
      have hsurv : survivors node X (c :: rest) \ Y.toFinset
          = survivors node X rest \ Y.toFinset := by
        rcases Bool.eq_false_or_eq_true (node ((mkView c).map Prod.snd)) with hn | hn
        · have he : survivors node X (c :: rest) = insert b (survivors node X rest) := by
            simp [survivors, List.filter_cons, hn, List.filterMap_cons, hget]
          rw [he]
          ext x
          by_cases hx : x = b
          · subst hx
            simp [List.mem_toFinset, hmem]
          · simp [Finset.mem_sdiff, Finset.mem_insert, hx]
        · have he : survivors node X (c :: rest) = survivors node X rest := by
            simp [survivors, List.filter_cons, hn]
          rw [he]
      rw [hstep, hsurv]
      exact ih Y hrest
    · by_cases hn : node ((mkView c).map Prod.snd) = true
      · -- the view is yielded; its accessed subset (X, b) is committed
        have hg : ((Y.map (fun y => [(X, y)])).any
            (fun s => s.all (fun p => decide (p ∈ mkView c)))) = false := by
          rw [hguard]
          exact decide_eq_false hmem
        have hfilter : (mkView c).filter (fun p => decide (p.1 ∈ [X])) = [(X, b)] := by
          rw [hview]
          exact accessed_filter_single c X b hbmem hbvar hnd
        have hstep : viewLoop node (consumerX X) (c :: rest) (Y.map (fun y => [(X, y)]))
            = mkView c ::
              viewLoop node (consumerX X) rest ((Y ++ [b]).map (fun y => [(X, y)])) := by
          simp only [viewLoop, hg, Bool.false_eq_true, if_false, hn, Bool.not_true,
            consumerX, if_true, hfilter, List.map_append, List.map_cons, List.map_nil]
        obtain ⟨ihlen, ihnd, ihnotin, ihfin⟩ := ih (Y ++ [b]) hrest
        have hsurvc : survivors node X (c :: rest) = insert b (survivors node X rest) := by
          simp [survivors, List.filter_cons, hn, List.filterMap_cons, hget]
        rw [hstep]
        simp only [List.filterMap_cons, hget, List.length_cons, List.nodup_cons,
          List.mem_cons, List.toFinset_cons]
        refine ⟨by omega, ⟨?_, ihnd⟩, ?_, ?_⟩
        · intro hbin
          exact ihnotin b hbin (by simp)
        · rintro b' (rfl | hb')
          · exact hmem
          · intro hbY
            exact ihnotin b' hb' (by simp [hbY])
        · rw [ihfin, hsurvc]
          ext x
          by_cases hx : x = b
          · subst hx
            simp [List.mem_toFinset, hmem]
          · simp only [Finset.mem_insert, Finset.mem_sdiff, List.mem_toFinset,
              List.mem_append, List.mem_singleton]
            tauto
      · -- the node rejects the combination: discarded
        have hg : ((Y.map (fun y => [(X, y)])).any
            (fun s => s.all (fun p => decide (p ∈ mkView c)))) = false := by
          rw [hguard]
          exact decide_eq_false hmem
        have hnf : node ((mkView c).map Prod.snd) = false := by
          rcases Bool.eq_false_or_eq_true (node ((mkView c).map Prod.snd)) with h | h
          · exact absurd h hn
          · exact h
        have hstep : viewLoop node (consumerX X) (c :: rest) (Y.map (fun y => [(X, y)]))
            = viewLoop node (consumerX X) rest (Y.map (fun y => [(X, y)])) := by
          simp only [viewLoop, hg, Bool.false_eq_true, if_false, hnf, Bool.not_false,
            if_true]
        have he : survivors node X (c :: rest) = survivors node X rest := by
          simp [survivors, List.filter_cons, hnf]
        rw [hstep, he]
        exact ih Y hrest

/-- Claim C1: when the consumer reads only variable `X` from each yielded
view and answers every yield with a skip instruction, the number of views
yielded equals the number of distinct bindings of `X` that survive the
combination check of the node, and no two yielded views carry the same
binding for `X` (once committed, a pair is never yielded again). -/
theorem get_views_skip_optimization (limit defaultData nodeId : Nat)
    (vars : List Variable) (X : Nat) (node : List Binding → Bool)
    (hids : (vars.map Variable.id).Nodup)
    (hX : X ∈ vars.map Variable.id)
    (hvars : ∀ v ∈ vars, ∀ b ∈ v.bindings, b.var = v.id)
    (hlim : ¬ limit < productSize vars) :
    (get_views limit defaultData nodeId node (consumerX X) vars).1.length
      = (survivors node X (deepVariableProduct vars)).card ∧
    ((get_views limit defaultData nodeId node (consumerX X) vars).1.filterMap
        (fun v => viewGet v X)).Nodup := by
  have hfst : (get_views limit defaultData nodeId node (consumerX X) vars).1
      = viewLoop node (consumerX X) (deepVariableProduct vars) [] := by
    simp [get_views, hlim]
  have hc : ∀ c ∈ deepVariableProduct vars,
      (c.map Binding.var).Nodup ∧ X ∈ c.map Binding.var := by
    intro c hcmem
    have hne : vars ≠ [] := by
      rintro rfl
      simp at hX
    have hcp : c ∈ bindingProduct vars := by
      cases vars with
      | nil => exact absurd rfl hne
      | cons v vs => exact hcmem
    have hf := (mem_bindingProduct vars c).mp hcp
    have hmap := prodCombo_map_var vars c hf hvars
    rw [hmap]
    exact ⟨hids, hX⟩
  have key := viewLoop_skipX node X (deepVariableProduct vars) [] hc
  simp only [List.map_nil] at key
  rw [hfst]
  obtain ⟨hlen, hnd, _, hfin⟩ := key
  refine ⟨?_, hnd⟩
  have hsurv : survivors node X (deepVariableProduct vars)
      = ((viewLoop node (consumerX X) (deepVariableProduct vars) []).filterMap
          (fun v => viewGet v X)).toFinset := by
    rw [hfin]
    simp
  rw [hsurv, List.toFinset_card_of_nodup hnd]
  exact hlen.symm

/-- Witness for C1: two variables with 2 and 3 bindings, an accept-all node
and the skip-everything consumer reading only variable 0 yield exactly 2
views (the distinct bindings of variable 0), with pairwise distinct
bindings chosen for it. -/
theorem get_views_skip_optimization_witness :
    (get_views 100 99 0 (fun _ => true) (consumerX 0)
      [⟨0, [⟨0, 10, 0, []⟩, ⟨0, 11, 0, []⟩]⟩,
       ⟨1, [⟨1, 20, 0, []⟩, ⟨1, 21, 0, []⟩, ⟨1, 22, 0, []⟩]⟩]).1.length
      = (survivors (fun _ => true) 0 (deepVariableProduct
          [⟨0, [⟨0, 10, 0, []⟩, ⟨0, 11, 0, []⟩]⟩,
           ⟨1, [⟨1, 20, 0, []⟩, ⟨1, 21, 0, []⟩, ⟨1, 22, 0, []⟩]⟩])).card ∧
    ((get_views 100 99 0 (fun _ => true) (consumerX 0)
      [⟨0, [⟨0, 10, 0, []⟩, ⟨0, 11, 0, []⟩]⟩,
       ⟨1, [⟨1, 20, 0, []⟩, ⟨1, 21, 0, []⟩, ⟨1, 22, 0, []⟩]⟩]).1.filterMap
        (fun v => viewGet v 0)).Nodup :=
  get_views_skip_optimization 100 99 0
    [⟨0, [⟨0, 10, 0, []⟩, ⟨0, 11, 0, []⟩]⟩,
     ⟨1, [⟨1, 20, 0, []⟩, ⟨1, 21, 0, []⟩, ⟨1, 22, 0, []⟩]⟩]
    0 (fun _ => true) (by decide) (by decide) (by decide) (by decide)

end PytypeSpec
